import Mathlib

/-!
Verification development for `synothumb.py`, a Synology-style thumbnail
generator.

The Python program is shallowly embedded.  Filesystem paths are lists of
components, the filesystem itself is the list of paths that exist, and the
results of external collaborators (the Pillow image codec, the rawpy RAW
decoder, ffmpeg subprocess invocations, and possible I/O failures when
saving output files) are supplied through an `Env` record.  Each of the
two per-file processors (`processImage` for `process_image`,
`processVideo` for `process_video`) returns the outcome the Python
function would report together with the ordered list of side effects it
performs; `applyEffects` replays those effects on a filesystem.

The size computation of `PIL.Image.Image.thumbnail` (the only part of the
external codec whose behaviour the specification constrains numerically)
is embedded in exact rational arithmetic, following Pillow's
`preserve_aspect_ratio` algorithm; the pixel contents produced by the
LANCZOS resampling filter are outside the program and are not modelled
(the resized raster keeps an unspecified pixel function), while
`Image.new` and `Image.paste`, whose pixel-level semantics the
specification constrains, are modelled exactly.
-/

namespace Synothumb

/-- A filesystem path, as its list of components. -/
abbrev Path := List String

/-- A candidate media file: the components of its parent directory
(`file_path.parent`) and its final component (`file_path.name`). -/
structure MediaFile where
  dir : Path
  name : String
deriving DecidableEq

/-- Does `hay` start with `needle`?  Helper for Python's substring test. -/
def startsWithChars : List Char → List Char → Bool
  | [], _ => true
  | _ :: _, [] => false
  | a :: as, b :: bs => a == b && startsWithChars as bs

/-- Python's `needle in hay` substring containment test, on character
lists. -/
def containsSub (needle : List Char) : List Char → Bool
  | [] => startsWithChars needle []
  | c :: cs => startsWithChars needle (c :: cs) || containsSub needle cs

/-- Helper for `str.rfind "."`: the index of the last dot in the list, if
any (accumulator-passing). -/
def rfindDotAux : List Char → Nat → Option Nat → Option Nat
  | [], _, acc => acc
  | c :: cs, i, acc => rfindDotAux cs (i + 1) (if c == '.' then some i else acc)

/-- The index at which `pathlib` splits a file name into stem and suffix:
the index `i` of the last dot when `0 < i < len(name) - 1`, otherwise the
full length (empty suffix). -/
def splitIdx (cs : List Char) : Nat :=
  match rfindDotAux cs 0 none with
  | some i => if 0 < i ∧ i + 1 < cs.length then i else cs.length
  | none => cs.length

/-- Embedding of `PurePath.suffix`: the extension including its dot, or
the empty string. -/
def pySuffix (name : String) : String := String.mk (name.data.drop (splitIdx name.data))

/-- Embedding of `PurePath.stem`: the final component without its suffix. -/
def pyStem (name : String) : String := String.mk (name.data.take (splitIdx name.data))

/-- The Python expression `file_path.suffix.lower()` (`str.lower` applied
characterwise; the extensions compared against are ASCII). -/
def lowerSuffix (name : String) : String :=
  String.mk ((pySuffix name).data.map Char.toLower)

/-- IMAGE_EXTENSIONS from the source. -/
def IMAGE_EXTENSIONS : List String :=
  [".jpg", ".jpeg", ".png", ".bmp", ".tif", ".tiff"]

/-- RAW_EXTENSIONS from the source. -/
def RAW_EXTENSIONS : List String :=
  [".arw", ".cr2", ".cr3", ".crw", ".dng", ".erf", ".nef", ".nrw", ".orf",
   ".pef", ".raf", ".raw", ".rw2", ".sr2", ".srf", ".x3f"]

/-- VIDEO_EXTENSIONS from the source. -/
def VIDEO_EXTENSIONS : List String :=
  [".mov", ".m4v", ".mp4", ".avi", ".mkv", ".mpg", ".mpeg", ".wmv", ".3gp", ".flv"]

/-- The `all_extensions` list built in `main`. -/
def allExtensions : List String := IMAGE_EXTENSIONS ++ RAW_EXTENSIONS ++ VIDEO_EXTENSIONS

/-- THUMBNAIL_CONFIG from the source, as the insertion-ordered list of
(filename, bounding-box) entries of the Python dict. -/
def THUMBNAIL_CONFIG : List (String × Nat × Nat) :=
  [("SYNOPHOTO_THUMB_XL.jpg", 1280, 1280),
   ("SYNOPHOTO_THUMB_L.jpg", 800, 800),
   ("SYNOPHOTO_THUMB_B.jpg", 640, 640),
   ("SYNOPHOTO_THUMB_M.jpg", 320, 320),
   ("SYNOPHOTO_THUMB_S.jpg", 160, 160)]

/-- PREVIEW_CONFIG from the source: preview filename and bounding box. -/
def PREVIEW_CONFIG : String × Nat × Nat := ("SYNOPHOTO_THUMB_PREVIEW.jpg", 120, 120)

/-- The Python expression `list(THUMBNAIL_CONFIG.keys())[0]`: the filename
whose existence is used as the skip marker. -/
def markerName : String := (THUMBNAIL_CONFIG.map Prod.fst).headD ""

/-- `file_path.parent / "@eaDir" / file_path.name`, the sidecar thumbnail
directory of a media file. -/
def sidecarDir (f : MediaFile) : Path := f.dir ++ ["@eaDir", f.name]

/-- The existence-marker path `thumb_dir / list(THUMBNAIL_CONFIG.keys())[0]`. -/
def markerPath (f : MediaFile) : Path := sidecarDir f ++ [markerName]

/-- The preview thumbnail's output path. -/
def previewPath (f : MediaFile) : Path := sidecarDir f ++ [PREVIEW_CONFIG.1]

/-- The filmstrip output path `thumb_dir / "SYNOPHOTO:FILM.flv"`. -/
def flvPath (f : MediaFile) : Path := sidecarDir f ++ ["SYNOPHOTO:FILM.flv"]

/-- The temporary frame filename `f"{file_path.stem}_temp.jpg"`. -/
def tempName (f : MediaFile) : String := String.mk ((pyStem f.name).data ++ "_temp.jpg".data)

/-- The temporary frame path inside the sidecar directory. -/
def tempPath (f : MediaFile) : Path := sidecarDir f ++ [tempName f]

/-- An in-memory raster: dimensions plus a pixel function to RGB values.
Pixel values at coordinates outside the dimensions are irrelevant. -/
structure Img where
  width : Nat
  height : Nat
  px : Nat → Nat → Nat × Nat × Nat

/-- The choice made by Python's two-argument `min(a, b, key=k)` inside
`round_aspect`: the first argument when its key is not larger, else the
second. -/
def roundChoice (fl ce : ℤ) (keyf keyc : ℚ) : ℤ := if keyf ≤ keyc then fl else ce

/-- The new width chosen by Pillow's `Image.thumbnail` in its
`x / y >= aspect` branch: `round_aspect(y * aspect, key=lambda n:
abs(aspect - n / y))`, that is `max(min(floor(q), ceil(q), key), 1)` for
`q = y * aspect`.  Exact rational arithmetic stands in for Python
floats. -/
def pickW (bh : Nat) (aspect : ℚ) : Nat :=
  (max (roundChoice ⌊(bh : ℚ) * aspect⌋ ⌈(bh : ℚ) * aspect⌉
    |aspect - ((⌊(bh : ℚ) * aspect⌋ : ℤ) : ℚ) / (bh : ℚ)|
    |aspect - ((⌈(bh : ℚ) * aspect⌉ : ℤ) : ℚ) / (bh : ℚ)|) 1).toNat

/-- The key function of Pillow's other `round_aspect` call:
`lambda n: 0 if n == 0 else abs(aspect - x / n)`. -/
def pickHKey (bw : Nat) (aspect : ℚ) (n : ℤ) : ℚ :=
  if n = 0 then 0 else |aspect - (bw : ℚ) / ((n : ℤ) : ℚ)|

/-- The new height chosen by Pillow's `Image.thumbnail` in its
`x / y < aspect` branch: `round_aspect(x / aspect, ...)` for
`q = x / aspect`. -/
def pickH (bw : Nat) (aspect : ℚ) : Nat :=
  (max (roundChoice ⌊(bw : ℚ) / aspect⌋ ⌈(bw : ℚ) / aspect⌉
    (pickHKey bw aspect ⌊(bw : ℚ) / aspect⌋)
    (pickHKey bw aspect ⌈(bw : ℚ) / aspect⌉)) 1).toNat

/-- The output dimensions of Pillow's `Image.thumbnail((bw, bh))` applied
to a `w`-by-`h` raster: unchanged when the raster already fits the box,
otherwise scaled to the box preserving the aspect ratio
`aspect = w / h`, the adjusted dimension rounded by `round_aspect`. -/
def thumbDims (w h bw bh : Nat) : Nat × Nat :=
  if bw ≥ w ∧ bh ≥ h then (w, h)
  else if (bw : ℚ) / (bh : ℚ) ≥ (w : ℚ) / (h : ℚ) then
    (pickW bh ((w : ℚ) / (h : ℚ)), bh)
  else (bw, pickH bw ((w : ℚ) / (h : ℚ)))

/-- An `a`-by-`b` raster preserves the aspect ratio of a `w`-by-`h`
raster within rounding: the cross products differ by at most one
rounding step of the larger dimension. -/
def aspectClose (w h a b : Nat) : Prop :=
  |(a : ℚ) * (h : ℚ) - (b : ℚ) * (w : ℚ)| ≤ ((max w h : Nat) : ℚ)

/-- The raster produced by `img.copy()` followed by
`img_copy.thumbnail((bw, bh), Image.Resampling.LANCZOS)`.  Only the
dimensions are determined by the program; the resampled pixel contents
are computed by Pillow's LANCZOS filter, which is external, so the pixel
function here is a stand-in that no theorem inspects. -/
def thumbAt (img : Img) (bw bh : Nat) : Img :=
  { width := (thumbDims img.width img.height bw bh).1,
    height := (thumbDims img.width img.height bw bh).2,
    px := img.px }

/-- The padded preview raster: `Image.new("RGB", p_size, (0, 0, 0))` with
the resized content pasted at `((p_size[0] - w) // 2,
(p_size[1] - h) // 2)`.  Pixels inside the pasted region come from the
content raster; every other pixel is the black fill colour. -/
def paddedPreview (content : Img) : Img :=
  let pw := PREVIEW_CONFIG.2.1
  let ph := PREVIEW_CONFIG.2.2
  let ox := (pw - content.width) / 2
  let oy := (ph - content.height) / 2
  { width := pw, height := ph,
    px := fun x y =>
      if ox ≤ x ∧ x < ox + content.width ∧ oy ≤ y ∧ y < oy + content.height then
        content.px (x - ox) (y - oy)
      else (0, 0, 0) }

/-- The outcome a processor call reports for one file, mirroring the
return strings of `process_image` / `process_video`: the skip message,
the two success messages, the generic `except Exception` branch carrying
the exception message that is logged, and the
`except subprocess.CalledProcessError` branch carrying the captured
stderr text. -/
inductive Outcome where
  | skipped
  | processedImage
  | processedVideo
  | failed (msg : String)
  | ffmpegFailed (stderr : String)
deriving DecidableEq

/-- Status classification of an outcome (Skipped / Processed / Failed). -/
def Outcome.isFailed : Outcome → Bool
  | .failed _ => true
  | .ffmpegFailed _ => true
  | _ => false

/-- Is the outcome a success report? -/
def Outcome.isProcessed : Outcome → Bool
  | .processedImage => true
  | .processedVideo => true
  | _ => false

/-- One side effect performed by a processor, in program order:
directory creation, the two ffmpeg invocations, a file created by
ffmpeg, a raster saved as JPEG at a quality setting, and a file
deletion. -/
inductive Effect where
  | mkdir (p : Path)
  | runFilmstrip (src : MediaFile) (out : Path)
  | runExtract (src : MediaFile) (out : Path)
  | ffmpegOut (p : Path)
  | writeImage (p : Path) (img : Img) (quality : Nat)
  | deleteFile (p : Path)

/-- Is the effect the frame-extraction subprocess invocation? -/
def Effect.isRunExtract : Effect → Bool
  | .runExtract _ _ => true
  | _ => false

/-- Is the effect a thumbnail write? -/
def Effect.isWriteImage : Effect → Bool
  | .writeImage _ _ _ => true
  | _ => false

/-- Is the effect a file deletion? -/
def Effect.isDelete : Effect → Bool
  | .deleteFile _ => true
  | _ => false

/-- The paths an effect adds to the filesystem. -/
def Effect.newPaths : Effect → List Path
  | .mkdir p => [p]
  | .ffmpegOut p => [p]
  | .writeImage p _ _ => [p]
  | _ => []

/-- Replaying one effect on the filesystem (the list of existing paths). -/
def Effect.applyFS (fs : List Path) : Effect → List Path
  | .mkdir p => fs ++ [p]
  | .ffmpegOut p => fs ++ [p]
  | .writeImage p _ _ => fs ++ [p]
  | .deleteFile p => fs.filter (fun q => !(q == p))
  | .runFilmstrip _ _ => fs
  | .runExtract _ _ => fs

/-- Replaying a list of effects, in order, on the filesystem. -/
def applyEffects (fs : List Path) (effs : List Effect) : List Path :=
  effs.foldl Effect.applyFS fs

/-- The environment of one processor call: everything decided outside the
program.  `decoded` is the base raster obtained by decoding (plain via
`Image.open` plus RGB conversion, or RAW via `rawpy.postprocess` with
camera white balance and 8-bit output) followed by
`ImageOps.exif_transpose`, or the message of the exception any of those
library calls raises.  `saveErr` gives, per output filename, the message
of an exception raised by `img_copy.save`, if any.  The ffmpeg fields
give the exit status and captured stderr of the two subprocess
invocations, `tempCreated` whether the extracted frame file exists after
the second invocation returns, and `frameDecoded` the result of
`Image.open` on the extracted frame. -/
structure Env where
  decoded : Except String Img
  saveErr : String → Option String
  filmstripExit : Nat
  filmstripStderr : String
  extractExit : Nat
  extractStderr : String
  tempCreated : Bool
  frameDecoded : Except String Img

/-- The loop `for name, size in THUMBNAIL_CONFIG.items()`: each iteration
resizes a copy of the base raster to the entry's bounding box and saves
it as JPEG at quality 95 under the entry's filename; an exception from a
save aborts the loop, keeping the effects already performed and carrying
the exception message. -/
def saveThumbnails (dir : Path) (img : Img) (env : Env) :
    List (String × Nat × Nat) → List Effect × Option String
  | [] => ([], none)
  | (name, bw, bh) :: rest =>
    match env.saveErr name with
    | some e => ([], some e)
    | none =>
      let r := saveThumbnails dir img env rest
      (.writeImage (dir ++ [name]) (thumbAt img bw bh) 95 :: r.1, r.2)

/-- Embedding of `process_image`: skip check against the existence
marker, sidecar directory creation, decode (from the environment), the
standard-thumbnail loop, and the padded preview; every exception raised
along the way is caught by the function's `except Exception` handler and
reported as a failed outcome carrying the exception message. -/
def processImage (fs : List Path) (f : MediaFile) (env : Env) : Outcome × List Effect :=
  if fs.contains (markerPath f) then
    (.skipped, [])
  else
    match env.decoded with
    | .error e => (.failed e, [.mkdir (sidecarDir f)])
    | .ok img =>
      match saveThumbnails (sidecarDir f) img env THUMBNAIL_CONFIG with
      | (effs, some e) => (.failed e, .mkdir (sidecarDir f) :: effs)
      | (effs, none) =>
        match env.saveErr PREVIEW_CONFIG.1 with
        | some e => (.failed e, .mkdir (sidecarDir f) :: effs)
        | none =>
          (.processedImage,
            .mkdir (sidecarDir f) :: effs ++
              [.writeImage (previewPath f)
                (paddedPreview (thumbAt img PREVIEW_CONFIG.2.1 PREVIEW_CONFIG.2.2)) 90])

/-- Embedding of `process_video`: skip check, sidecar directory creation,
the filmstrip ffmpeg invocation (`subprocess.run(..., check=True)`
raises `CalledProcessError` on a nonzero exit, caught by the dedicated
handler that reports the captured stderr), the frame-extraction ffmpeg
invocation, the `temp_thumb_path.exists()` check raising
`FileNotFoundError` when the frame is absent, decoding of the extracted
frame, the standard-thumbnail loop, and deletion of the temporary
frame.  An ffmpeg output file is recorded as existing when the
corresponding invocation exits zero (for the temporary frame, when the
environment says the file was produced). -/
def processVideo (fs : List Path) (f : MediaFile) (env : Env) : Outcome × List Effect :=
  if fs.contains (markerPath f) then
    (.skipped, [])
  else
    let d := sidecarDir f
    if env.filmstripExit ≠ 0 then
      (.ffmpegFailed env.filmstripStderr, [.mkdir d, .runFilmstrip f (flvPath f)])
    else
      let effs1 : List Effect :=
        [.mkdir d, .runFilmstrip f (flvPath f), .ffmpegOut (flvPath f)]
      if env.extractExit ≠ 0 then
        (.ffmpegFailed env.extractStderr, effs1 ++ [.runExtract f (tempPath f)])
      else
        let effs2 : List Effect :=
          effs1 ++ [.runExtract f (tempPath f)] ++
            (if env.tempCreated then [.ffmpegOut (tempPath f)] else [])
        if !env.tempCreated then
          (.failed "FFmpeg failed to extract a thumbnail frame.", effs2)
        else
          match env.frameDecoded with
          | .error e => (.failed e, effs2)
          | .ok img =>
            match saveThumbnails d img env THUMBNAIL_CONFIG with
            | (effs, some e) => (.failed e, effs2 ++ effs)
            | (effs, none) => (.processedVideo, effs2 ++ effs ++ [.deleteFile (tempPath f)])

/-- The character list of `str(f.parent)` for a path given by its
components: components joined by the separator. -/
def pathChars : Path → List Char
  | [] => []
  | [d] => d.data
  | d :: ds => d.data ++ '/' :: pathChars ds

/-- The discovery list comprehension in `main`: every candidate whose
lower-cased suffix is in `all_extensions` and whose parent path's string
does not contain "@eaDir" as a substring. -/
def discover (files : List MediaFile) : List MediaFile :=
  files.filter fun f =>
    allExtensions.contains (lowerSuffix f.name) &&
      !(containsSub "@eaDir".data (pathChars f.dir))

/-- The dispatch test in `main`: `file_path.suffix.lower() in
VIDEO_EXTENSIONS`. -/
def isVideoFile (f : MediaFile) : Bool := VIDEO_EXTENSIONS.contains (lowerSuffix f.name)

/-- One scheduled task: the processor chosen by the dispatch test,
applied to the file. -/
def runTask (fs : List Path) (f : MediaFile) (env : Env) : Outcome × List Effect :=
  if isVideoFile f then processVideo fs f env else processImage fs f env

/-- The scheduler: every discovered file is submitted once and its single
result is collected (completion order is abstracted; each task reads the
initial filesystem and its own environment). -/
def runAll (fs : List Path) (files : List MediaFile) (envf : MediaFile → Env) :
    List (MediaFile × Outcome × List Effect) :=
  files.map fun f => (f, runTask fs f (envf f))

/-! ### Concrete fixtures used to instantiate the theorems -/

/-- Fixture: a small 8-by-4 black raster. -/
def imgA : Img := ⟨8, 4, fun _ _ => (0, 0, 0)⟩

/-- Fixture: a plain image file. -/
def fileA : MediaFile := ⟨["photos"], "a.jpg"⟩

/-- Fixture: a video file. -/
def fileV : MediaFile := ⟨["photos"], "c.mp4"⟩

/-- Fixture: an environment in which every external step succeeds. -/
def envOk : Env := ⟨.ok imgA, fun _ => none, 0, "", 0, "", true, .ok imgA⟩

/-- Fixture: an environment whose filmstrip invocation exits nonzero. -/
def envFilmFail : Env := ⟨.ok imgA, fun _ => none, 1, "boom", 0, "", true, .ok imgA⟩

/-- Fixture: an environment whose frame-extraction invocation exits
nonzero, with the same captured stderr text as `envFilmFail`. -/
def envExtractFail : Env := ⟨.ok imgA, fun _ => none, 0, "", 1, "boom", true, .ok imgA⟩

/-- Fixture: an environment whose extraction exits zero but leaves no
frame file behind. -/
def envNoFrame : Env := ⟨.ok imgA, fun _ => none, 0, "", 0, "", false, .ok imgA⟩

/-- Fixture: an environment whose decode step raises. -/
def envDecodeFail : Env :=
  ⟨.error "cannot identify image file", fun _ => none, 0, "", 0, "", true, .ok imgA⟩

/-- Fixture: an environment in which saving the small thumbnail raises. -/
def envSaveSFail : Env :=
  ⟨.ok imgA, fun n => if n == "SYNOPHOTO_THUMB_S.jpg" then some "disk full" else none,
   0, "", 0, "", true, .ok imgA⟩

/-- Fixture: a file under a directory whose name merely contains the
sidecar marker as a substring without being a sidecar directory. -/
def fileOdd : MediaFile := ⟨["photos", "x@eaDiry"], "a.jpg"⟩

/-- Fixture: a generated artifact inside a genuine sidecar directory. -/
def fileInSidecar : MediaFile := ⟨["photos", "@eaDir", "a.jpg"], "SYNOPHOTO_THUMB_XL.jpg"⟩

/-- Fixture: a file with an unrecognized extension. -/
def fileTxt : MediaFile := ⟨["photos"], "notes.txt"⟩

/-- Fixture: a filesystem already holding the marker of `fileA`. -/
def fsMarked : List Path := [markerPath fileA]

/-- Fixture: a filesystem already holding the marker of `fileV`. -/
def fsMarkedV : List Path := [markerPath fileV]

/-! ### Bridging lemmas -/

theorem contains_true_iff (fs : List Path) (p : Path) : fs.contains p = true ↔ p ∈ fs := by
  simp [List.contains, List.elem_iff]

theorem contains_false_iff (fs : List Path) (p : Path) : fs.contains p = false ↔ p ∉ fs := by
  rw [← contains_true_iff fs p]
  cases fs.contains p <;> simp

theorem applyEffects_cons (fs : List Path) (e : Effect) (effs : List Effect) :
    applyEffects fs (e :: effs) = applyEffects (e.applyFS fs) effs := rfl

theorem mem_applyFS_of_mem {p : Path} {fs : List Path} (e : Effect)
    (hp : p ∈ fs) (hne : ∀ q, e = Effect.deleteFile q → q ≠ p) : p ∈ e.applyFS fs := by
  cases e with
  | mkdir q => exact List.mem_append_left _ hp
  | ffmpegOut q => exact List.mem_append_left _ hp
  | writeImage q i n => exact List.mem_append_left _ hp
  | runFilmstrip s o => exact hp
  | runExtract s o => exact hp
  | deleteFile q =>
    have hqp : q ≠ p := hne q rfl
    simp only [Effect.applyFS, List.mem_filter]
    exact ⟨hp, by simpa using Ne.symm hqp⟩

theorem mem_applyEffects_of_mem {p : Path} {effs : List Effect} :
    ∀ {fs : List Path}, p ∈ fs → (∀ q, Effect.deleteFile q ∈ effs → q ≠ p) →
      p ∈ applyEffects fs effs := by
  induction effs with
  | nil => intro fs hp _; simpa [applyEffects] using hp
  | cons e rest ih =>
    intro fs hp hdel
    rw [applyEffects_cons]
    refine ih (mem_applyFS_of_mem e hp ?_) ?_
    · intro q hq
      exact hdel q (by rw [← hq]; exact List.mem_cons_self e rest)
    · intro q hq
      exact hdel q (List.mem_cons_of_mem _ hq)

theorem mem_applyEffects_of_write {p : Path} {img : Img} {q : Nat} {effs : List Effect} :
    ∀ {fs : List Path}, Effect.writeImage p img q ∈ effs →
      (∀ r, Effect.deleteFile r ∈ effs → r ≠ p) → p ∈ applyEffects fs effs := by
  induction effs with
  | nil => intro fs h _; simp at h
  | cons e rest ih =>
    intro fs hmem hdel
    rw [applyEffects_cons]
    rcases List.mem_cons.mp hmem with he | hrest
    · rw [← he]
      refine mem_applyEffects_of_mem (by simp [Effect.applyFS]) ?_
      intro r hr
      exact hdel r (List.mem_cons_of_mem _ hr)
    · exact ih hrest (fun r hr => hdel r (List.mem_cons_of_mem _ hr))

theorem saveThumbnails_mem_shape {dir : Path} {img : Img} {env : Env} :
    ∀ {cfg : List (String × Nat × Nat)} {e : Effect},
      e ∈ (saveThumbnails dir img env cfg).1 →
      ∃ n bw bh, (n, bw, bh) ∈ cfg ∧
        e = Effect.writeImage (dir ++ [n]) (thumbAt img bw bh) 95 := by
  intro cfg
  induction cfg with
  | nil => intro e he; simp [saveThumbnails] at he
  | cons entry rest ih =>
    intro e he
    obtain ⟨n, bw, bh⟩ := entry
    simp only [saveThumbnails] at he
    cases hse : env.saveErr n with
    | some err => rw [hse] at he; simp at he
    | none =>
      rw [hse] at he
      simp only [List.mem_cons] at he
      rcases he with he | he
      · exact ⟨n, bw, bh, by simp, he⟩
      · obtain ⟨n', bw', bh', hmem, heq⟩ := ih he
        exact ⟨n', bw', bh', List.mem_cons_of_mem _ hmem, heq⟩

theorem saveThumbnails_mem_success {dir : Path} {img : Img} {env : Env} :
    ∀ {cfg : List (String × Nat × Nat)} {n : String} {bw bh : Nat},
      (n, bw, bh) ∈ cfg → (saveThumbnails dir img env cfg).2 = none →
      Effect.writeImage (dir ++ [n]) (thumbAt img bw bh) 95 ∈ (saveThumbnails dir img env cfg).1 := by
  intro cfg
  induction cfg with
  | nil => intro n bw bh hmem _; simp at hmem
  | cons entry rest ih =>
    intro n bw bh hmem hnone
    obtain ⟨n', bw', bh'⟩ := entry
    cases hse : env.saveErr n' with
    | some err => simp [saveThumbnails, hse] at hnone
    | none =>
      simp only [saveThumbnails, hse] at hnone ⊢
      rcases List.mem_cons.mp hmem with he | he
      · have h3 : n = n' ∧ bw = bw' ∧ bh = bh' := by simpa using he
        obtain ⟨rfl, rfl, rfl⟩ := h3
        exact List.mem_cons_self _ _
      · exact List.mem_cons_of_mem _ (ih he hnone)

theorem append_temp_ne_xl (s : List Char) :
    s ++ "_temp.jpg".data ≠ "SYNOPHOTO_THUMB_XL.jpg".data := by
  intro h
  have h2 := congrArg List.length h
  simp [List.length_append] at h2
  have hs : s.length = 13 := by omega
  have hdrop := congrArg (List.drop s.length) h
  rw [List.drop_left] at hdrop
  rw [hs] at hdrop
  exact absurd hdrop (by decide)

theorem tempName_ne_markerName (f : MediaFile) : tempName f ≠ markerName := by
  intro h
  exact append_temp_ne_xl (pyStem f.name).data (congrArg String.data h)

theorem markerPath_ne_tempPath (f : MediaFile) : markerPath f ≠ tempPath f := by
  intro h
  have h2 : sidecarDir f ++ [markerName] = sidecarDir f ++ [tempName f] := h
  have h3 := List.append_cancel_left h2
  have h4 : markerName = tempName f := by simpa using h3
  exact tempName_ne_markerName f h4.symm

theorem markerPath_ne_flvPath (f : MediaFile) : markerPath f ≠ flvPath f := by
  intro h
  have h2 : sidecarDir f ++ [markerName] = sidecarDir f ++ ["SYNOPHOTO:FILM.flv"] := h
  have h3 := List.append_cancel_left h2
  have h4 : markerName = "SYNOPHOTO:FILM.flv" := by simpa using h3
  exact absurd h4 (by decide)

theorem markerPath_ne_sidecarDir (f : MediaFile) : markerPath f ≠ sidecarDir f := by
  intro h
  have h2 := congrArg List.length h
  simp [markerPath] at h2

/-! ### Branch equations and inversions for the processors -/

theorem processImage_skip_eq {fs : List Path} {f : MediaFile} (env : Env)
    (hc : fs.contains (markerPath f) = true) :
    processImage fs f env = (.skipped, []) := by
  simp [processImage, (contains_true_iff fs (markerPath f)).mp hc]

theorem processVideo_skip_eq {fs : List Path} {f : MediaFile} (env : Env)
    (hc : fs.contains (markerPath f) = true) :
    processVideo fs f env = (.skipped, []) := by
  simp [processVideo, (contains_true_iff fs (markerPath f)).mp hc]

theorem processImage_success_eq {fs : List Path} {f : MediaFile} {env : Env} {img : Img}
    {effs : List Effect}
    (hcb : fs.contains (markerPath f) = false)
    (hd : env.decoded = .ok img)
    (hst : saveThumbnails (sidecarDir f) img env THUMBNAIL_CONFIG = (effs, none))
    (hpe : env.saveErr PREVIEW_CONFIG.1 = none) :
    processImage fs f env =
      (.processedImage,
        .mkdir (sidecarDir f) :: effs ++
          [.writeImage (previewPath f)
            (paddedPreview (thumbAt img PREVIEW_CONFIG.2.1 PREVIEW_CONFIG.2.2)) 90]) := by
  have hm := (contains_false_iff fs (markerPath f)).mp hcb
  simp [processImage, hm, hd, hst, hpe]

theorem processImage_processed_inv {fs : List Path} {f : MediaFile} {env : Env}
    (h : (processImage fs f env).1 = .processedImage) :
    fs.contains (markerPath f) = false ∧
    ∃ img effs, env.decoded = .ok img ∧
      saveThumbnails (sidecarDir f) img env THUMBNAIL_CONFIG = (effs, none) ∧
      env.saveErr PREVIEW_CONFIG.1 = none := by
  cases hcb : fs.contains (markerPath f) with
  | true => rw [processImage_skip_eq env hcb] at h; simp at h
  | false =>
    refine ⟨rfl, ?_⟩
    have hm := (contains_false_iff fs (markerPath f)).mp hcb
    cases hd : env.decoded with
    | error e => simp [processImage, hm, hd] at h
    | ok img =>
      cases hst : saveThumbnails (sidecarDir f) img env THUMBNAIL_CONFIG with
      | mk effs r =>
        cases r with
        | some e => simp [processImage, hm, hd, hst] at h
        | none =>
          cases hpe : env.saveErr PREVIEW_CONFIG.1 with
          | some e => simp [processImage, hm, hd, hst, hpe] at h
          | none => exact ⟨img, effs, rfl, hst, rfl⟩

theorem processVideo_success_eq {fs : List Path} {f : MediaFile} {env : Env} {img : Img}
    {effs : List Effect}
    (hcb : fs.contains (markerPath f) = false)
    (hf : env.filmstripExit = 0) (he : env.extractExit = 0) (ht : env.tempCreated = true)
    (hd : env.frameDecoded = .ok img)
    (hst : saveThumbnails (sidecarDir f) img env THUMBNAIL_CONFIG = (effs, none)) :
    processVideo fs f env =
      (.processedVideo,
        .mkdir (sidecarDir f) :: .runFilmstrip f (flvPath f) :: .ffmpegOut (flvPath f) ::
          .runExtract f (tempPath f) :: .ffmpegOut (tempPath f) ::
            (effs ++ [.deleteFile (tempPath f)])) := by
  have hm := (contains_false_iff fs (markerPath f)).mp hcb
  simp [processVideo, hm, hf, he, ht, hd, hst]

theorem processVideo_processed_inv {fs : List Path} {f : MediaFile} {env : Env}
    (h : (processVideo fs f env).1 = .processedVideo) :
    fs.contains (markerPath f) = false ∧
    env.filmstripExit = 0 ∧ env.extractExit = 0 ∧ env.tempCreated = true ∧
    ∃ img effs, env.frameDecoded = .ok img ∧
      saveThumbnails (sidecarDir f) img env THUMBNAIL_CONFIG = (effs, none) := by
  cases hcb : fs.contains (markerPath f) with
  | true => rw [processVideo_skip_eq env hcb] at h; simp at h
  | false =>
    have hm := (contains_false_iff fs (markerPath f)).mp hcb
    by_cases hf : env.filmstripExit = 0
    case neg => simp [processVideo, hm, hf] at h
    by_cases he : env.extractExit = 0
    case neg => simp [processVideo, hm, hf, he] at h
    cases ht : env.tempCreated with
    | false => simp [processVideo, hm, hf, he, ht] at h
    | true =>
      refine ⟨rfl, hf, he, rfl, ?_⟩
      cases hd : env.frameDecoded with
      | error e => simp [processVideo, hm, hf, he, ht, hd] at h
      | ok img =>
        cases hst : saveThumbnails (sidecarDir f) img env THUMBNAIL_CONFIG with
        | mk effs r =>
          cases r with
          | some e => simp [processVideo, hm, hf, he, ht, hd, hst] at h
          | none => exact ⟨img, effs, rfl, hst⟩

theorem processImage_status (fs : List Path) (f : MediaFile) (env : Env) :
    (processImage fs f env).1 = .skipped ∨ (processImage fs f env).1 = .processedImage ∨
      (processImage fs f env).1.isFailed = true := by
  cases hcb : fs.contains (markerPath f) with
  | true => left; rw [processImage_skip_eq env hcb]
  | false =>
    have hm := (contains_false_iff fs (markerPath f)).mp hcb
    cases hd : env.decoded with
    | error e => right; right; simp [processImage, hm, hd, Outcome.isFailed]
    | ok img =>
      cases hst : saveThumbnails (sidecarDir f) img env THUMBNAIL_CONFIG with
      | mk effs r =>
        cases r with
        | some e => right; right; simp [processImage, hm, hd, hst, Outcome.isFailed]
        | none =>
          cases hpe : env.saveErr PREVIEW_CONFIG.1 with
          | some e => right; right; simp [processImage, hm, hd, hst, hpe, Outcome.isFailed]
          | none => right; left; simp [processImage, hm, hd, hst, hpe]

theorem processVideo_status (fs : List Path) (f : MediaFile) (env : Env) :
    (processVideo fs f env).1 = .skipped ∨ (processVideo fs f env).1 = .processedVideo ∨
      (processVideo fs f env).1.isFailed = true := by
  cases hcb : fs.contains (markerPath f) with
  | true => left; rw [processVideo_skip_eq env hcb]
  | false =>
    have hm := (contains_false_iff fs (markerPath f)).mp hcb
    by_cases hf : env.filmstripExit = 0
    case neg => right; right; simp [processVideo, hm, hf, Outcome.isFailed]
    by_cases he : env.extractExit = 0
    case neg => right; right; simp [processVideo, hm, hf, he, Outcome.isFailed]
    cases ht : env.tempCreated with
    | false => right; right; simp [processVideo, hm, hf, he, ht, Outcome.isFailed]
    | true =>
      cases hd : env.frameDecoded with
      | error e => right; right; simp [processVideo, hm, hf, he, ht, hd, Outcome.isFailed]
      | ok img =>
        cases hst : saveThumbnails (sidecarDir f) img env THUMBNAIL_CONFIG with
        | mk effs r =>
          cases r with
          | some e => right; right; simp [processVideo, hm, hf, he, ht, hd, hst, Outcome.isFailed]
          | none => right; left; simp [processVideo, hm, hf, he, ht, hd, hst]

/-! ### Claim theorems -/

/-- C1: when the sidecar existence marker (the first standard thumbnail,
SYNOPHOTO_THUMB_XL.jpg, inside the file's sidecar directory) already
exists, both processors report Skipped and perform no side effects at
all; and after any successful processing run the marker is present in
the resulting filesystem, so a second run over it reports Skipped with
no effects, leaving every existing file unchanged — processing is
idempotent. -/
theorem processors_skip_and_idempotent (fs : List Path) (f : MediaFile) (env env2 : Env) :
    (markerPath f ∈ fs →
      processImage fs f env = (.skipped, []) ∧ processVideo fs f env = (.skipped, [])) ∧
    ((processImage fs f env).1 = .processedImage →
      markerPath f ∈ applyEffects fs (processImage fs f env).2 ∧
      processImage (applyEffects fs (processImage fs f env).2) f env2 = (.skipped, [])) ∧
    ((processVideo fs f env).1 = .processedVideo →
      markerPath f ∈ applyEffects fs (processVideo fs f env).2 ∧
      processVideo (applyEffects fs (processVideo fs f env).2) f env2 = (.skipped, [])) := by
  refine ⟨fun hm => ?_, fun hp => ?_, fun hp => ?_⟩
  · have hc := (contains_true_iff fs (markerPath f)).mpr hm
    exact ⟨processImage_skip_eq env hc, processVideo_skip_eq env hc⟩
  · obtain ⟨hcb, img, effs, hd, hst, hpe⟩ := processImage_processed_inv hp
    have hEq := processImage_success_eq hcb hd hst hpe
    have h2 : (processImage fs f env).2 =
        Effect.mkdir (sidecarDir f) :: effs ++
          [.writeImage (previewPath f)
            (paddedPreview (thumbAt img PREVIEW_CONFIG.2.1 PREVIEW_CONFIG.2.2)) 90] := by
      rw [hEq]
    rw [h2]
    have hxl : (markerName, 1280, 1280) ∈ THUMBNAIL_CONFIG := by decide
    have hnone : (saveThumbnails (sidecarDir f) img env THUMBNAIL_CONFIG).2 = none := by
      rw [hst]
    have hw := saveThumbnails_mem_success hxl hnone
    rw [hst] at hw
    have hw2 : Effect.writeImage (markerPath f) (thumbAt img 1280 1280) 95 ∈
        Effect.mkdir (sidecarDir f) :: effs ++
          [.writeImage (previewPath f)
            (paddedPreview (thumbAt img PREVIEW_CONFIG.2.1 PREVIEW_CONFIG.2.2)) 90] :=
      List.mem_cons_of_mem _ (List.mem_append_left _ hw)
    have hnodel : ∀ r, Effect.deleteFile r ∈
        Effect.mkdir (sidecarDir f) :: effs ++
          [.writeImage (previewPath f)
            (paddedPreview (thumbAt img PREVIEW_CONFIG.2.1 PREVIEW_CONFIG.2.2)) 90] →
        r ≠ markerPath f := by
      intro r hr
      exfalso
      rcases List.mem_cons.mp hr with h1 | h1
      · exact absurd h1 (by simp)
      · rcases List.mem_append.mp h1 with h3 | h4
        · have h3' : Effect.deleteFile r ∈
              (saveThumbnails (sidecarDir f) img env THUMBNAIL_CONFIG).1 := by
            rw [hst]; exact h3
          obtain ⟨n, bw, bh, _, heq⟩ := saveThumbnails_mem_shape h3'
          exact absurd heq (by simp)
        · simp at h4
    have hmem : markerPath f ∈ applyEffects fs
        (Effect.mkdir (sidecarDir f) :: effs ++
          [.writeImage (previewPath f)
            (paddedPreview (thumbAt img PREVIEW_CONFIG.2.1 PREVIEW_CONFIG.2.2)) 90]) :=
      mem_applyEffects_of_write hw2 hnodel
    exact ⟨hmem, processImage_skip_eq env2 ((contains_true_iff _ _).mpr hmem)⟩
  · obtain ⟨hcb, hf, he, ht, img, effs, hd, hst⟩ := processVideo_processed_inv hp
    have hEq := processVideo_success_eq hcb hf he ht hd hst
    have h2 : (processVideo fs f env).2 =
        Effect.mkdir (sidecarDir f) :: .runFilmstrip f (flvPath f) :: .ffmpegOut (flvPath f) ::
          .runExtract f (tempPath f) :: .ffmpegOut (tempPath f) ::
            (effs ++ [.deleteFile (tempPath f)]) := by
      rw [hEq]
    rw [h2]
    have hxl : (markerName, 1280, 1280) ∈ THUMBNAIL_CONFIG := by decide
    have hnone : (saveThumbnails (sidecarDir f) img env THUMBNAIL_CONFIG).2 = none := by
      rw [hst]
    have hw := saveThumbnails_mem_success hxl hnone
    rw [hst] at hw
    have hw2 : Effect.writeImage (markerPath f) (thumbAt img 1280 1280) 95 ∈
        Effect.mkdir (sidecarDir f) :: .runFilmstrip f (flvPath f) :: .ffmpegOut (flvPath f) ::
          .runExtract f (tempPath f) :: .ffmpegOut (tempPath f) ::
            (effs ++ [.deleteFile (tempPath f)]) :=
      List.mem_cons_of_mem _ (List.mem_cons_of_mem _ (List.mem_cons_of_mem _
        (List.mem_cons_of_mem _ (List.mem_cons_of_mem _ (List.mem_append_left _ hw)))))
    have hnodel : ∀ r, Effect.deleteFile r ∈
        Effect.mkdir (sidecarDir f) :: .runFilmstrip f (flvPath f) :: .ffmpegOut (flvPath f) ::
          .runExtract f (tempPath f) :: .ffmpegOut (tempPath f) ::
            (effs ++ [.deleteFile (tempPath f)]) →
        r ≠ markerPath f := by
      intro r hr
      simp only [List.mem_cons] at hr
      rcases hr with h | h | h | h | h | h
      · exact absurd h (by simp)
      · exact absurd h (by simp)
      · exact absurd h (by simp)
      · exact absurd h (by simp)
      · exact absurd h (by simp)
      · rcases List.mem_append.mp h with h3 | h4
        · exfalso
          have h3' : Effect.deleteFile r ∈
              (saveThumbnails (sidecarDir f) img env THUMBNAIL_CONFIG).1 := by
            rw [hst]; exact h3
          obtain ⟨n, bw, bh, _, heq⟩ := saveThumbnails_mem_shape h3'
          exact absurd heq (by simp)
        · have h5 : r = tempPath f := by simpa using h4
          rw [h5]
          exact (markerPath_ne_tempPath f).symm
    have hmem : markerPath f ∈ applyEffects fs
        (Effect.mkdir (sidecarDir f) :: .runFilmstrip f (flvPath f) :: .ffmpegOut (flvPath f) ::
          .runExtract f (tempPath f) :: .ffmpegOut (tempPath f) ::
            (effs ++ [.deleteFile (tempPath f)])) :=
      mem_applyEffects_of_write hw2 hnodel
    exact ⟨hmem, processVideo_skip_eq env2 ((contains_true_iff _ _).mpr hmem)⟩

theorem processors_skip_and_idempotent_witness :
    (markerPath fileA ∈ fsMarked ∧
      processImage fsMarked fileA envOk = (.skipped, []) ∧
      processVideo fsMarked fileA envOk = (.skipped, [])) ∧
    ((processImage [] fileA envOk).1 = .processedImage ∧
      markerPath fileA ∈ applyEffects [] (processImage [] fileA envOk).2 ∧
      processImage (applyEffects [] (processImage [] fileA envOk).2) fileA envOk =
        (.skipped, [])) ∧
    ((processVideo [] fileV envOk).1 = .processedVideo ∧
      markerPath fileV ∈ applyEffects [] (processVideo [] fileV envOk).2 ∧
      processVideo (applyEffects [] (processVideo [] fileV envOk).2) fileV envOk =
        (.skipped, [])) := by
  have h1 : markerPath fileA ∈ fsMarked := by simp [fsMarked]
  have h2 := (processors_skip_and_idempotent fsMarked fileA envOk envOk).1 h1
  have h3 : (processImage [] fileA envOk).1 = .processedImage := by rfl
  have h4 := (processors_skip_and_idempotent [] fileA envOk envOk).2.1 h3
  have h5 : (processVideo [] fileV envOk).1 = .processedVideo := by rfl
  have h6 := (processors_skip_and_idempotent [] fileV envOk envOk).2.2 h5
  exact ⟨⟨h1, h2.1, h2.2⟩, ⟨h3, h4.1, h4.2⟩, ⟨h5, h6.1, h6.2⟩⟩

/-- C2: the scheduler produces exactly one outcome per discovered file:
the collected result list has the same length as the discovery list,
its files are exactly the discovered files in order, and every
discovered file contributes its own task's single outcome — no file is
dropped, whatever its outcome. -/
theorem one_outcome_per_file (fs : List Path) (files : List MediaFile)
    (envf : MediaFile → Env) :
    (runAll fs (discover files) envf).length = (discover files).length ∧
    (runAll fs (discover files) envf).map Prod.fst = discover files ∧
    ∀ f ∈ discover files, (f, runTask fs f (envf f)) ∈ runAll fs (discover files) envf := by
  have hmap : (runAll fs (discover files) envf).map Prod.fst = discover files := by
    rw [runAll, List.map_map]
    exact List.map_id' _
  refine ⟨by simp [runAll], hmap, ?_⟩
  intro f hf
  exact List.mem_map.mpr ⟨f, hf, rfl⟩

theorem one_outcome_per_file_witness :
    fileA ∈ discover [fileA] ∧
    (fileA, runTask [] fileA envOk) ∈
      runAll [] (discover [fileA]) (fun _ => envOk) := by
  have h1 : fileA ∈ discover [fileA] := by decide
  exact ⟨h1, (one_outcome_per_file [] [fileA] (fun _ => envOk)).2.2 fileA h1⟩

/-- C3: every failure of an external step during one file's processing is
converted into a failed outcome carrying the error summary (the decode
error, the save error, the captured ffmpeg stderr, or the
missing-frame message), the processors always report exactly one of
Skipped / Processed / Failed (they never propagate an exception), and
each scheduled task's result is a function of that file's own
environment alone, so one failing file never disturbs another task's
outcome. -/
theorem errors_become_failed_outcomes (fs : List Path) (f : MediaFile) (env : Env)
    (hm : markerPath f ∉ fs) :
    (∀ e, env.decoded = .error e →
      processImage fs f env = (.failed e, [.mkdir (sidecarDir f)])) ∧
    (∀ img e, env.decoded = .ok img →
      (saveThumbnails (sidecarDir f) img env THUMBNAIL_CONFIG).2 = some e →
      (processImage fs f env).1 = .failed e) ∧
    (∀ img e, env.decoded = .ok img →
      (saveThumbnails (sidecarDir f) img env THUMBNAIL_CONFIG).2 = none →
      env.saveErr PREVIEW_CONFIG.1 = some e →
      (processImage fs f env).1 = .failed e) ∧
    (env.filmstripExit ≠ 0 → (processVideo fs f env).1 = .ffmpegFailed env.filmstripStderr) ∧
    (env.filmstripExit = 0 → env.extractExit ≠ 0 →
      (processVideo fs f env).1 = .ffmpegFailed env.extractStderr) ∧
    (env.filmstripExit = 0 → env.extractExit = 0 → env.tempCreated = false →
      (processVideo fs f env).1 = .failed "FFmpeg failed to extract a thumbnail frame.") ∧
    (∀ e, env.filmstripExit = 0 → env.extractExit = 0 → env.tempCreated = true →
      env.frameDecoded = .error e → (processVideo fs f env).1 = .failed e) ∧
    (∀ img e, env.filmstripExit = 0 → env.extractExit = 0 → env.tempCreated = true →
      env.frameDecoded = .ok img →
      (saveThumbnails (sidecarDir f) img env THUMBNAIL_CONFIG).2 = some e →
      (processVideo fs f env).1 = .failed e) ∧
    ((processImage fs f env).1 = .skipped ∨ (processImage fs f env).1 = .processedImage ∨
      (processImage fs f env).1.isFailed = true) ∧
    ((processVideo fs f env).1 = .skipped ∨ (processVideo fs f env).1 = .processedVideo ∨
      (processVideo fs f env).1.isFailed = true) ∧
    (∀ files envf g, g ∈ files →
      (g, runTask fs g (envf g)) ∈ runAll fs files envf) := by
  refine ⟨?_, ?_, ?_, ?_, ?_, ?_, ?_, ?_,
    processImage_status fs f env, processVideo_status fs f env, ?_⟩
  · intro e hd
    simp [processImage, hm, hd]
  · intro img e hd hsome
    cases hst : saveThumbnails (sidecarDir f) img env THUMBNAIL_CONFIG with
    | mk effs r =>
      have hr : r = some e := by rw [hst] at hsome; exact hsome
      subst hr
      simp [processImage, hm, hd, hst]
  · intro img e hd hnone hpe
    cases hst : saveThumbnails (sidecarDir f) img env THUMBNAIL_CONFIG with
    | mk effs r =>
      have hr : r = none := by rw [hst] at hnone; exact hnone
      subst hr
      simp [processImage, hm, hd, hst, hpe]
  · intro hf
    simp [processVideo, hm, hf]
  · intro hf he
    simp [processVideo, hm, hf, he]
  · intro hf he ht
    simp [processVideo, hm, hf, he, ht]
  · intro e hf he ht hd
    simp [processVideo, hm, hf, he, ht, hd]
  · intro img e hf he ht hd hsome
    cases hst : saveThumbnails (sidecarDir f) img env THUMBNAIL_CONFIG with
    | mk effs r =>
      have hr : r = some e := by rw [hst] at hsome; exact hsome
      subst hr
      simp [processVideo, hm, hf, he, ht, hd, hst]
  · intro files envf g hg
    exact List.mem_map.mpr ⟨g, hg, rfl⟩

theorem errors_become_failed_outcomes_witness :
    markerPath fileA ∉ ([] : List Path) ∧
    envDecodeFail.decoded = .error "cannot identify image file" ∧
    processImage [] fileA envDecodeFail =
      (.failed "cannot identify image file", [.mkdir (sidecarDir fileA)]) := by
  have h1 : markerPath fileA ∉ ([] : List Path) := by simp
  have h2 := (errors_become_failed_outcomes [] fileA envDecodeFail h1).1
    "cannot identify image file" rfl
  exact ⟨h1, rfl, h2⟩

/-- C8: a nonzero exit of the filmstrip subprocess is fatal to the whole
video file: the outcome is the ffmpeg-error outcome carrying the
captured stderr, the only effects performed are the sidecar directory
creation and the filmstrip invocation itself, and in particular the
frame-extraction subprocess and the thumbnail writes never run. -/
theorem filmstrip_failure_fatal (fs : List Path) (f : MediaFile) (env : Env)
    (hm : markerPath f ∉ fs) (hexit : env.filmstripExit ≠ 0) :
    processVideo fs f env =
      (.ffmpegFailed env.filmstripStderr,
        [.mkdir (sidecarDir f), .runFilmstrip f (flvPath f)]) ∧
    ∀ e ∈ (processVideo fs f env).2, e.isRunExtract = false ∧ e.isWriteImage = false := by
  have heq : processVideo fs f env =
      (.ffmpegFailed env.filmstripStderr,
        [.mkdir (sidecarDir f), .runFilmstrip f (flvPath f)]) := by
    simp [processVideo, hm, hexit]
  refine ⟨heq, ?_⟩
  rw [heq]
  intro e he
  rcases List.mem_cons.mp he with h | h
  · rw [h]; exact ⟨rfl, rfl⟩
  · have h2 : e = Effect.runFilmstrip f (flvPath f) := by simpa using h
    rw [h2]; exact ⟨rfl, rfl⟩

theorem filmstrip_failure_fatal_witness :
    markerPath fileV ∉ ([] : List Path) ∧ envFilmFail.filmstripExit ≠ 0 ∧
    processVideo [] fileV envFilmFail =
      (.ffmpegFailed "boom",
        [.mkdir (sidecarDir fileV), .runFilmstrip fileV (flvPath fileV)]) := by
  have h1 : markerPath fileV ∉ ([] : List Path) := by simp
  have h2 : envFilmFail.filmstripExit ≠ 0 := by decide
  exact ⟨h1, h2, (filmstrip_failure_fatal [] fileV envFilmFail h1 h2).1⟩

/-- C4, counterexample to "a distinguished extraction-failed error kind":
the outcome reported when the frame-extraction subprocess exits nonzero
is identical to the outcome reported when the filmstrip subprocess
exits nonzero with the same captured stderr (a run in which extraction
never even started), so no function of the outcome can distinguish an
extraction failure from another ffmpeg failure. -/
theorem extraction_error_kind_not_distinguished :
    envFilmFail.filmstripExit ≠ 0 ∧
    envExtractFail.filmstripExit = 0 ∧ envExtractFail.extractExit ≠ 0 ∧
    (processVideo [] fileV envExtractFail).1 = (processVideo [] fileV envFilmFail).1 := by
  exact ⟨by decide, by decide, by decide, rfl⟩

/-- C4 (amended): when the frame-extraction subprocess exits nonzero the
video outcome is the ffmpeg-failure outcome carrying the captured
stderr — the same error kind the filmstrip failure produces, not a
dedicated extraction kind — and when it exits zero without producing
the expected temporary file the outcome is the generic failure carrying
the FileNotFoundError message naming frame extraction; in both cases no
thumbnail write is performed and the existence marker is absent from
the resulting filesystem, so a later run's SkipGuard check is not
satisfied. -/
theorem extraction_failure_no_marker (fs : List Path) (f : MediaFile) (env : Env)
    (hm : markerPath f ∉ fs) (hf : env.filmstripExit = 0) :
    (env.extractExit ≠ 0 →
      (processVideo fs f env).1 = .ffmpegFailed env.extractStderr ∧
      markerPath f ∉ applyEffects fs (processVideo fs f env).2 ∧
      ∀ e ∈ (processVideo fs f env).2, e.isWriteImage = false) ∧
    (env.extractExit = 0 → env.tempCreated = false →
      (processVideo fs f env).1 = .failed "FFmpeg failed to extract a thumbnail frame." ∧
      markerPath f ∉ applyEffects fs (processVideo fs f env).2 ∧
      ∀ e ∈ (processVideo fs f env).2, e.isWriteImage = false) := by
  constructor
  · intro he
    have heq : processVideo fs f env =
        (.ffmpegFailed env.extractStderr,
          [.mkdir (sidecarDir f), .runFilmstrip f (flvPath f), .ffmpegOut (flvPath f),
            .runExtract f (tempPath f)]) := by
      simp [processVideo, hm, hf, he]
    rw [heq]
    refine ⟨rfl, ?_, ?_⟩
    · intro hmem
      rcases List.mem_append.mp hmem with h | h
      · rcases List.mem_append.mp h with h1 | h1
        · exact hm h1
        · exact markerPath_ne_sidecarDir f (by simpa using h1)
      · exact markerPath_ne_flvPath f (by simpa using h)
    · intro e hee
      rcases List.mem_cons.mp hee with h | h
      · rw [h]; rfl
      rcases List.mem_cons.mp h with h | h
      · rw [h]; rfl
      rcases List.mem_cons.mp h with h | h
      · rw [h]; rfl
      · have h2 : e = Effect.runExtract f (tempPath f) := by simpa using h
        rw [h2]; rfl
  · intro he ht
    have heq : processVideo fs f env =
        (.failed "FFmpeg failed to extract a thumbnail frame.",
          [.mkdir (sidecarDir f), .runFilmstrip f (flvPath f), .ffmpegOut (flvPath f),
            .runExtract f (tempPath f)]) := by
      simp [processVideo, hm, hf, he, ht]
    rw [heq]
    refine ⟨rfl, ?_, ?_⟩
    · intro hmem
      rcases List.mem_append.mp hmem with h | h
      · rcases List.mem_append.mp h with h1 | h1
        · exact hm h1
        · exact markerPath_ne_sidecarDir f (by simpa using h1)
      · exact markerPath_ne_flvPath f (by simpa using h)
    · intro e hee
      rcases List.mem_cons.mp hee with h | h
      · rw [h]; rfl
      rcases List.mem_cons.mp h with h | h
      · rw [h]; rfl
      rcases List.mem_cons.mp h with h | h
      · rw [h]; rfl
      · have h2 : e = Effect.runExtract f (tempPath f) := by simpa using h
        rw [h2]; rfl

theorem extraction_failure_no_marker_witness :
    markerPath fileV ∉ ([] : List Path) ∧ envExtractFail.filmstripExit = 0 ∧
    envExtractFail.extractExit ≠ 0 ∧
    (processVideo [] fileV envExtractFail).1 = .ffmpegFailed "boom" ∧
    markerPath fileV ∉ applyEffects [] (processVideo [] fileV envExtractFail).2 := by
  have h1 : markerPath fileV ∉ ([] : List Path) := by simp
  have h2 := (extraction_failure_no_marker [] fileV envExtractFail h1 rfl).1 (by decide)
  exact ⟨h1, rfl, by decide, h2.1, h2.2.1⟩

/-! ### Discovery: substring test versus sidecar components (C5) -/

theorem startsWithChars_append (n t : List Char) : startsWithChars n (n ++ t) = true := by
  induction n with
  | nil => rfl
  | cons c cs ih => simp [startsWithChars, ih]

theorem containsSub_of_startsWith {n h : List Char} (hs : startsWithChars n h = true) :
    containsSub n h = true := by
  cases h with
  | nil => simpa [containsSub] using hs
  | cons c cs => simp [containsSub, hs]

theorem containsSub_cons (n : List Char) (c : Char) (cs : List Char)
    (h : containsSub n cs = true) : containsSub n (c :: cs) = true := by
  simp [containsSub, h]

theorem containsSub_of_decomp (n pre post : List Char) :
    containsSub n (pre ++ (n ++ post)) = true := by
  induction pre with
  | nil => exact containsSub_of_startsWith (startsWithChars_append n post)
  | cons c cs ih => exact containsSub_cons _ _ _ ih

theorem pathChars_decomp {s : String} : ∀ {ds : Path}, s ∈ ds →
    ∃ pre post, pathChars ds = pre ++ (s.data ++ post) := by
  intro ds
  induction ds with
  | nil => intro h; simp at h
  | cons d rest ih =>
    intro h
    rcases List.mem_cons.mp h with heq | h2
    · cases rest with
      | nil => exact ⟨[], [], by simp [pathChars, heq]⟩
      | cons e es => exact ⟨[], '/' :: pathChars (e :: es), by rw [heq]; rfl⟩
    · cases rest with
      | nil => simp at h2
      | cons e es =>
        obtain ⟨pre, post, hp⟩ := ih h2
        refine ⟨d.data ++ '/' :: pre, post, ?_⟩
        show d.data ++ '/' :: pathChars (e :: es) = _
        rw [hp]
        simp

/-- C5 counterexample: the file "photos/x@eaDiry/a.jpg" has a matching
extension and its path passes through no directory named "@eaDir", yet
discovery excludes it, because the exclusion test is a substring test
on the parent path's string rather than a component test. -/
theorem discover_misses_file_under_substring_dir :
    allExtensions.contains (lowerSuffix fileOdd.name) = true ∧
    (∀ d ∈ fileOdd.dir, d ≠ "@eaDir") ∧
    discover [fileOdd] = [] := by
  exact ⟨by decide, by decide, by decide⟩

/-- C5 (amended): discovery yields exactly the candidates whose
lower-cased suffix is one of the known extensions and whose parent path
string does not contain "@eaDir" as a substring.  In particular no file
lying inside a genuine sidecar directory (a path component equal to
"@eaDir") is ever yielded; but a matching file under a directory whose
name merely contains "@eaDir" as a substring is excluded as well, so
not every file outside sidecar directories is yielded. -/
theorem discover_excludes_sidecars (files : List MediaFile) (f : MediaFile) :
    (f ∈ discover files ↔
      f ∈ files ∧ allExtensions.contains (lowerSuffix f.name) = true ∧
        containsSub "@eaDir".data (pathChars f.dir) = false) ∧
    ("@eaDir" ∈ f.dir → f ∉ discover files) := by
  constructor
  · rw [discover, List.mem_filter]
    constructor
    · rintro ⟨h1, h2⟩
      rw [Bool.and_eq_true, Bool.not_eq_true'] at h2
      exact ⟨h1, h2.1, h2.2⟩
    · rintro ⟨h1, h2, h3⟩
      exact ⟨h1, by rw [Bool.and_eq_true, Bool.not_eq_true']; exact ⟨h2, h3⟩⟩
  · intro hmem hdisc
    rw [discover, List.mem_filter] at hdisc
    obtain ⟨pre, post, hp⟩ := pathChars_decomp hmem
    have hsub := containsSub_of_decomp "@eaDir".data pre post
    rw [← hp] at hsub
    rw [Bool.and_eq_true, Bool.not_eq_true'] at hdisc
    rw [hdisc.2.2] at hsub
    exact Bool.false_ne_true hsub

theorem discover_excludes_sidecars_witness :
    "@eaDir" ∈ fileInSidecar.dir ∧ fileInSidecar ∉ discover [fileInSidecar] := by
  have h1 : "@eaDir" ∈ fileInSidecar.dir := by decide
  exact ⟨h1, (discover_excludes_sidecars [fileInSidecar] fileInSidecar).2 h1⟩

/-! ### Classification (C9) -/

theorem contains_mem_iff {α : Type} [BEq α] [LawfulBEq α] (l : List α) (a : α) :
    l.contains a = true ↔ a ∈ l := by
  simp [List.contains, List.elem_iff]

theorem image_raw_not_video {s : String}
    (h : s ∈ IMAGE_EXTENSIONS ∨ s ∈ RAW_EXTENSIONS) : s ∉ VIDEO_EXTENSIONS := by
  intro hv
  rcases h with h | h <;> fin_cases h <;> exact absurd hv (by decide)

theorem sidecarDir_inj {f g : MediaFile} (h : sidecarDir f = sidecarDir g) : f = g := by
  have h2 : f.dir ++ ["@eaDir", f.name] = g.dir ++ ["@eaDir", g.name] := h
  obtain ⟨hdir, htail⟩ := List.append_inj' h2 rfl
  have hname : f.name = g.name := by simpa using htail
  cases f
  cases g
  simp_all

theorem processImage_mkdir_shape (fs : List Path) (f : MediaFile) (env : Env) :
    ∀ p, Effect.mkdir p ∈ (processImage fs f env).2 → p = sidecarDir f := by
  intro p hp
  cases hcb : fs.contains (markerPath f) with
  | true => rw [processImage_skip_eq env hcb] at hp; simp at hp
  | false =>
    have hm := (contains_false_iff fs (markerPath f)).mp hcb
    cases hd : env.decoded with
    | error e =>
      simp [processImage, hm, hd] at hp
      exact hp
    | ok img =>
      cases hst : saveThumbnails (sidecarDir f) img env THUMBNAIL_CONFIG with
      | mk effs r =>
        have hshape : Effect.mkdir p ∈ effs → False := by
          intro hin
          have hin' : Effect.mkdir p ∈
              (saveThumbnails (sidecarDir f) img env THUMBNAIL_CONFIG).1 := by
            rw [hst]; exact hin
          obtain ⟨n, bw, bh, _, heq⟩ := saveThumbnails_mem_shape hin'
          exact absurd heq (by simp)
        cases r with
        | some e =>
          simp [processImage, hm, hd, hst] at hp
          rcases hp with hp | hp
          · exact hp
          · exact absurd hp hshape
        | none =>
          cases hpe : env.saveErr PREVIEW_CONFIG.1 with
          | some e =>
            simp [processImage, hm, hd, hst, hpe] at hp
            rcases hp with hp | hp
            · exact hp
            · exact absurd hp hshape
          | none =>
            simp [processImage, hm, hd, hst, hpe] at hp
            rcases hp with hp | hp
            · exact hp
            · exact absurd hp hshape

theorem processVideo_mkdir_shape (fs : List Path) (f : MediaFile) (env : Env) :
    ∀ p, Effect.mkdir p ∈ (processVideo fs f env).2 → p = sidecarDir f := by
  intro p hp
  cases hcb : fs.contains (markerPath f) with
  | true => rw [processVideo_skip_eq env hcb] at hp; simp at hp
  | false =>
    have hm := (contains_false_iff fs (markerPath f)).mp hcb
    by_cases hf : env.filmstripExit = 0
    case neg =>
      simp [processVideo, hm, hf] at hp
      exact hp
    by_cases he : env.extractExit = 0
    case neg =>
      simp [processVideo, hm, hf, he] at hp
      exact hp
    cases ht : env.tempCreated with
    | false =>
      simp [processVideo, hm, hf, he, ht] at hp
      exact hp
    | true =>
      cases hd : env.frameDecoded with
      | error e =>
        simp [processVideo, hm, hf, he, ht, hd] at hp
        exact hp
      | ok img =>
        cases hst : saveThumbnails (sidecarDir f) img env THUMBNAIL_CONFIG with
        | mk effs r =>
          have hshape : Effect.mkdir p ∈ effs → False := by
            intro hin
            have hin' : Effect.mkdir p ∈
                (saveThumbnails (sidecarDir f) img env THUMBNAIL_CONFIG).1 := by
              rw [hst]; exact hin
            obtain ⟨n, bw, bh, _, heq⟩ := saveThumbnails_mem_shape hin'
            exact absurd heq (by simp)
          cases r with
          | some e =>
            simp [processVideo, hm, hf, he, ht, hd, hst] at hp
            rcases hp with hp | hp
            · exact hp
            · exact absurd hp hshape
          | none =>
            simp [processVideo, hm, hf, he, ht, hd, hst] at hp
            rcases hp with hp | hp
            · exact hp
            · exact absurd hp hshape

theorem runTask_mkdir_shape (fs : List Path) (f : MediaFile) (env : Env) :
    ∀ p, Effect.mkdir p ∈ (runTask fs f env).2 → p = sidecarDir f := by
  intro p
  rw [runTask]
  cases isVideoFile f
  · simpa using processImage_mkdir_shape fs f env p
  · simpa using processVideo_mkdir_shape fs f env p

/-- C9: classification is a pure function of the lower-cased extension
against three pairwise-disjoint static sets: a video extension
dispatches the task to the video processor, a plain-image or RAW
extension to the image processor, and a file whose extension is in none
of the three sets is never discovered, receives no outcome from the
scheduler, and no scheduled task ever creates its sidecar directory. -/
theorem classification_pure_and_total (fs : List Path) (files : List MediaFile)
    (envf : MediaFile → Env) (f g : MediaFile) (env : Env) :
    (IMAGE_EXTENSIONS.all (fun e => !(RAW_EXTENSIONS.contains e) &&
        !(VIDEO_EXTENSIONS.contains e)) &&
      RAW_EXTENSIONS.all (fun e => !(VIDEO_EXTENSIONS.contains e))) = true ∧
    (lowerSuffix f.name = lowerSuffix g.name → isVideoFile f = isVideoFile g) ∧
    (VIDEO_EXTENSIONS.contains (lowerSuffix f.name) = true →
      runTask fs f env = processVideo fs f env) ∧
    ((IMAGE_EXTENSIONS.contains (lowerSuffix f.name) ||
        RAW_EXTENSIONS.contains (lowerSuffix f.name)) = true →
      runTask fs f env = processImage fs f env) ∧
    (allExtensions.contains (lowerSuffix f.name) = false →
      f ∉ discover files ∧
      (∀ x ∈ runAll fs (discover files) envf, x.1 ≠ f) ∧
      (∀ x ∈ runAll fs (discover files) envf, ∀ p,
        Effect.mkdir p ∈ x.2.2 → p ≠ sidecarDir f)) := by
  refine ⟨by decide, ?_, ?_, ?_, ?_⟩
  · intro h
    rw [isVideoFile, isVideoFile, h]
  · intro h
    rw [runTask, isVideoFile, h]
    rfl
  · intro h
    have hvf : isVideoFile f = false := by
      cases hvf : isVideoFile f
      · rfl
      · exfalso
        have hv := (contains_mem_iff _ _).mp hvf
        have him : lowerSuffix f.name ∈ IMAGE_EXTENSIONS ∨
            lowerSuffix f.name ∈ RAW_EXTENSIONS := by
          rcases Bool.or_eq_true .. ▸ h with h1 | h1
          · exact Or.inl ((contains_mem_iff _ _).mp h1)
          · exact Or.inr ((contains_mem_iff _ _).mp h1)
        exact image_raw_not_video him hv
    rw [runTask, hvf]
    rfl
  · intro h
    have hnot : f ∉ discover files := by
      intro hdisc
      rw [discover, List.mem_filter] at hdisc
      rw [Bool.and_eq_true] at hdisc
      rw [h] at hdisc
      exact Bool.false_ne_true hdisc.2.1
    refine ⟨hnot, ?_, ?_⟩
    · intro x hx
      obtain ⟨g', hg', hgx⟩ := List.mem_map.mp hx
      intro heq
      apply hnot
      rw [← hgx] at heq
      have hg : g' = f := heq
      rw [hg] at hg'
      exact hg'
    · intro x hx p hpin heq
      obtain ⟨g', hg', hgx⟩ := List.mem_map.mp hx
      have hp2 : Effect.mkdir p ∈ (runTask fs g' (envf g')).2 := by
        rw [← hgx] at hpin
        exact hpin
      have hpd := runTask_mkdir_shape fs g' (envf g') p hp2
      rw [heq] at hpd
      have : g' = f := sidecarDir_inj hpd.symm
      rw [this] at hg'
      exact hnot hg'

theorem classification_pure_and_total_witness :
    VIDEO_EXTENSIONS.contains (lowerSuffix fileV.name) = true ∧
    runTask [] fileV envOk = processVideo [] fileV envOk ∧
    (IMAGE_EXTENSIONS.contains (lowerSuffix fileA.name) ||
      RAW_EXTENSIONS.contains (lowerSuffix fileA.name)) = true ∧
    runTask [] fileA envOk = processImage [] fileA envOk ∧
    allExtensions.contains (lowerSuffix fileTxt.name) = false ∧
    fileTxt ∉ discover [fileA, fileTxt] := by
  have hv := (classification_pure_and_total [] [] (fun _ => envOk)
    fileV fileV envOk).2.2.1 (by decide)
  have hi := (classification_pure_and_total [] [] (fun _ => envOk)
    fileA fileA envOk).2.2.2.1 (by decide)
  have ht := ((classification_pure_and_total [] [fileA, fileTxt] (fun _ => envOk)
    fileTxt fileTxt envOk).2.2.2.2 (by decide)).1
  exact ⟨by decide, hv, by decide, hi, by decide, ht⟩

/-! ### The thumbnail size computation (C6, C7) -/

theorem roundChoice_mem (fl ce : ℤ) (kf kc : ℚ) :
    roundChoice fl ce kf kc = fl ∨ roundChoice fl ce kf kc = ce := by
  rw [roundChoice]
  split
  · exact Or.inl rfl
  · exact Or.inr rfl

theorem pick_cast (z : ℤ) (hnn : (0:ℤ) ≤ max z 1) :
    (((max z 1).toNat : Nat) : ℚ) = max ((z : ℤ) : ℚ) 1 := by
  have h1 : ((max z 1).toNat : ℤ) = max z 1 := Int.toNat_of_nonneg hnn
  have h2 : (((max z 1).toNat : Nat) : ℚ) = ((max z 1 : ℤ) : ℚ) := by
    exact_mod_cast congrArg (fun t : ℤ => (t : ℚ)) h1
  rw [h2]
  push_cast
  rfl

theorem pick_val_close (z : ℤ) (q : ℚ) (hq : 0 < q) (hz : z = ⌊q⌋ ∨ z = ⌈q⌉) :
    |(((max z 1).toNat : Nat) : ℚ) - q| ≤ 1 := by
  have hnn : (0:ℤ) ≤ max z 1 := le_trans zero_le_one (le_max_right _ _)
  rw [pick_cast z hnn, abs_sub_le_iff]
  rcases hz with rfl | rfl
  · rcases le_total ((⌊q⌋ : ℤ) : ℚ) 1 with hc | hc
    · rw [max_eq_right hc]
      have h1 := Int.lt_floor_add_one q
      constructor <;> linarith
    · rw [max_eq_left hc]
      have h1 := Int.floor_le q
      have h2 := Int.sub_one_lt_floor q
      constructor <;> linarith
  · have hpos : (1 : ℤ) ≤ ⌈q⌉ := Int.ceil_pos.mpr hq
    have hc : (1 : ℚ) ≤ ((⌈q⌉ : ℤ) : ℚ) := by exact_mod_cast hpos
    rw [max_eq_left hc]
    have h1 := Int.le_ceil q
    have h2 := Int.ceil_lt_add_one q
    constructor <;> linarith

theorem pick_val_le (z : ℤ) (q : ℚ) (B : Nat) (hB : 1 ≤ B) (hz : z = ⌊q⌋ ∨ z = ⌈q⌉)
    (hq : q ≤ (B : ℚ)) : (max z 1).toNat ≤ B := by
  have hce : ⌈q⌉ ≤ (B : ℤ) := Int.ceil_le.mpr (by exact_mod_cast hq)
  have hfl : ⌊q⌋ ≤ (B : ℤ) := le_trans (Int.floor_le_ceil q) hce
  rw [Int.toNat_le]
  rcases hz with rfl | rfl
  · exact max_le hfl (by exact_mod_cast hB)
  · exact max_le hce (by exact_mod_cast hB)

theorem thumbDims_spec {w h bw bh : Nat} (hw : 1 ≤ w) (hh : 1 ≤ h)
    (hbw : 1 ≤ bw) (hbh : 1 ≤ bh) :
    (thumbDims w h bw bh).1 ≤ bw ∧ (thumbDims w h bw bh).2 ≤ bh ∧
    (thumbDims w h bw bh).1 ≤ w ∧ (thumbDims w h bw bh).2 ≤ h ∧
    aspectClose w h (thumbDims w h bw bh).1 (thumbDims w h bw bh).2 := by
  have hw' : (0:ℚ) < w := by exact_mod_cast hw
  have hh' : (0:ℚ) < h := by exact_mod_cast hh
  have hbw' : (0:ℚ) < bw := by exact_mod_cast hbw
  have hbh' : (0:ℚ) < bh := by exact_mod_cast hbh
  by_cases hfit : bw ≥ w ∧ bh ≥ h
  · have hval : thumbDims w h bw bh = (w, h) := by rw [thumbDims, if_pos hfit]
    rw [hval]
    refine ⟨hfit.1, hfit.2, le_refl w, le_refl h, ?_⟩
    rw [aspectClose]
    have hz : (w:ℚ) * h - (h:ℚ) * w = 0 := by ring
    rw [hz, abs_zero]
    positivity
  · by_cases hge : (bw : ℚ) / (bh : ℚ) ≥ (w : ℚ) / (h : ℚ)
    · have hval : thumbDims w h bw bh = (pickW bh ((w:ℚ)/(h:ℚ)), bh) := by
        rw [thumbDims, if_neg hfit, if_pos hge]
      have hge' : (w:ℚ) * bh ≤ bw * h := by
        rw [ge_iff_le, div_le_div_iff₀ hh' hbh'] at hge
        linarith
      have hbh_h : bh ≤ h := by
        by_contra hlt
        push_neg at hlt
        have hlt' : (h:ℚ) < bh := by exact_mod_cast hlt
        have h1 : (w:ℚ) * h < w * bh := mul_lt_mul_of_pos_left hlt' hw'
        have h2 : (w:ℚ) * h < bw * h := lt_of_lt_of_le h1 hge'
        have h3 : (w:ℚ) < bw := lt_of_mul_lt_mul_right h2 (le_of_lt hh')
        have h4 : w ≤ bw := by exact_mod_cast le_of_lt h3
        exact hfit ⟨h4, le_of_lt hlt⟩
      have hql : (bh:ℚ) * ((w:ℚ)/(h:ℚ)) ≤ (bw : ℚ) := by
        rw [mul_div_assoc', div_le_iff₀ hh']
        nlinarith
      have hqw : (bh:ℚ) * ((w:ℚ)/(h:ℚ)) ≤ (w : ℚ) := by
        rw [mul_div_assoc', div_le_iff₀ hh']
        have hc : (bh:ℚ) ≤ h := by exact_mod_cast hbh_h
        nlinarith
      have hqpos : 0 < (bh:ℚ) * ((w:ℚ)/(h:ℚ)) := by positivity
      have hp1 : pickW bh ((w:ℚ)/(h:ℚ)) ≤ bw := by
        rw [pickW]
        exact pick_val_le _ _ bw hbw (roundChoice_mem _ _ _ _) hql
      have hp2 : pickW bh ((w:ℚ)/(h:ℚ)) ≤ w := by
        rw [pickW]
        exact pick_val_le _ _ w hw (roundChoice_mem _ _ _ _) hqw
      have hclose : |((pickW bh ((w:ℚ)/(h:ℚ)) : Nat) : ℚ) - (bh:ℚ) * ((w:ℚ)/(h:ℚ))| ≤ 1 := by
        rw [pickW]
        exact pick_val_close _ _ hqpos (roundChoice_mem _ _ _ _)
      have hac : aspectClose w h (pickW bh ((w:ℚ)/(h:ℚ))) bh := by
        rw [aspectClose]
        have hqh : ((bh:ℚ) * ((w:ℚ)/(h:ℚ))) * h = (bh:ℚ) * w := by
          field_simp
        have heq : ((pickW bh ((w:ℚ)/(h:ℚ)) : Nat) : ℚ) * h - (bh:ℚ) * w =
            (((pickW bh ((w:ℚ)/(h:ℚ)) : Nat) : ℚ) - (bh:ℚ) * ((w:ℚ)/(h:ℚ))) * h := by
          rw [sub_mul, hqh]
        have habs : |((pickW bh ((w:ℚ)/(h:ℚ)) : Nat) : ℚ) * h - (bh:ℚ) * w| ≤ (h : ℚ) := by
          rw [heq, abs_mul, abs_of_pos hh']
          calc |((pickW bh ((w:ℚ)/(h:ℚ)) : Nat) : ℚ) - (bh:ℚ) * ((w:ℚ)/(h:ℚ))| * h
              ≤ 1 * h := mul_le_mul_of_nonneg_right hclose (le_of_lt hh')
            _ = h := one_mul _
        refine le_trans habs ?_
        exact_mod_cast le_max_right w h
      rw [hval]
      exact ⟨hp1, le_refl bh, hp2, hbh_h, hac⟩
    · have hval : thumbDims w h bw bh = (bw, pickH bw ((w:ℚ)/(h:ℚ))) := by
        rw [thumbDims, if_neg hfit, if_neg hge]
      have hlt2' : (bw:ℚ) * h < w * bh := by
        rw [ge_iff_le, not_le, div_lt_div_iff₀ hbh' hh'] at hge
        linarith
      have hbw_w : bw ≤ w := by
        by_contra hc
        push_neg at hc
        have hc' : (w:ℚ) < bw := by exact_mod_cast hc
        have h1 : (w:ℚ) * h < bw * h := mul_lt_mul_of_pos_right hc' hh'
        have h2 : (w:ℚ) * h < w * bh := lt_trans h1 hlt2'
        have h3 : (h:ℚ) < bh := lt_of_mul_lt_mul_left h2 (le_of_lt hw')
        have h4 : h ≤ bh := by exact_mod_cast le_of_lt h3
        exact hfit ⟨le_of_lt hc, h4⟩
      have hq2 : (bw : ℚ) / ((w:ℚ)/(h:ℚ)) = (bw:ℚ) * h / w := by
        field_simp
      have hq2b : (bw : ℚ) / ((w:ℚ)/(h:ℚ)) ≤ (bh : ℚ) := by
        rw [hq2, div_le_iff₀ hw']
        nlinarith
      have hq2h : (bw : ℚ) / ((w:ℚ)/(h:ℚ)) ≤ (h : ℚ) := by
        rw [hq2, div_le_iff₀ hw']
        have hc : (bw:ℚ) ≤ w := by exact_mod_cast hbw_w
        nlinarith
      have hq2pos : 0 < (bw : ℚ) / ((w:ℚ)/(h:ℚ)) := by positivity
      have hp1 : pickH bw ((w:ℚ)/(h:ℚ)) ≤ bh := by
        rw [pickH]
        exact pick_val_le _ _ bh hbh (roundChoice_mem _ _ _ _) hq2b
      have hp2 : pickH bw ((w:ℚ)/(h:ℚ)) ≤ h := by
        rw [pickH]
        exact pick_val_le _ _ h hh (roundChoice_mem _ _ _ _) hq2h
      have hclose : |((pickH bw ((w:ℚ)/(h:ℚ)) : Nat) : ℚ) - (bw:ℚ)/((w:ℚ)/(h:ℚ))| ≤ 1 := by
        rw [pickH]
        exact pick_val_close _ _ hq2pos (roundChoice_mem _ _ _ _)
      have hac : aspectClose w h bw (pickH bw ((w:ℚ)/(h:ℚ))) := by
        rw [aspectClose]
        have hq2w : ((bw:ℚ)/((w:ℚ)/(h:ℚ))) * w = (bw:ℚ) * h := by
          rw [hq2]
          field_simp
        have heq : (bw:ℚ) * h - ((pickH bw ((w:ℚ)/(h:ℚ)) : Nat) : ℚ) * w =
            -((((pickH bw ((w:ℚ)/(h:ℚ)) : Nat) : ℚ) - (bw:ℚ)/((w:ℚ)/(h:ℚ))) * w) := by
          rw [sub_mul, hq2w]
          ring
        have habs : |(bw:ℚ) * h - ((pickH bw ((w:ℚ)/(h:ℚ)) : Nat) : ℚ) * w| ≤ (w : ℚ) := by
          rw [heq, abs_neg, abs_mul, abs_of_pos hw']
          calc |((pickH bw ((w:ℚ)/(h:ℚ)) : Nat) : ℚ) - (bw:ℚ)/((w:ℚ)/(h:ℚ))| * w
              ≤ 1 * w := mul_le_mul_of_nonneg_right hclose (le_of_lt hw')
            _ = w := one_mul _
        refine le_trans habs ?_
        exact_mod_cast le_max_left w h
      rw [hval]
      exact ⟨le_refl bw, hp1, hbw_w, hp2, hac⟩

theorem processImage_success_writes {fs : List Path} {f : MediaFile} {env : Env} {img : Img}
    (hd : env.decoded = .ok img)
    (hproc : (processImage fs f env).1 = .processedImage) :
    (∀ n bw bh, (n, bw, bh) ∈ THUMBNAIL_CONFIG →
      Effect.writeImage (sidecarDir f ++ [n]) (thumbAt img bw bh) 95 ∈
        (processImage fs f env).2) ∧
    Effect.writeImage (previewPath f)
      (paddedPreview (thumbAt img PREVIEW_CONFIG.2.1 PREVIEW_CONFIG.2.2)) 90 ∈
      (processImage fs f env).2 := by
  obtain ⟨hcb, img', effs, hd', hst, hpe⟩ := processImage_processed_inv hproc
  rw [hd] at hd'
  have himg : img = img' := by injection hd'
  subst himg
  have h2 : (processImage fs f env).2 =
      Effect.mkdir (sidecarDir f) :: effs ++
        [.writeImage (previewPath f)
          (paddedPreview (thumbAt img PREVIEW_CONFIG.2.1 PREVIEW_CONFIG.2.2)) 90] := by
    rw [processImage_success_eq hcb hd hst hpe]
  rw [h2]
  constructor
  · intro n bw bh hmem
    have hws := saveThumbnails_mem_success hmem
      (by rw [hst] : (saveThumbnails (sidecarDir f) img env THUMBNAIL_CONFIG).2 = none)
    rw [hst] at hws
    exact List.mem_cons_of_mem _ (List.mem_append_left _ hws)
  · exact List.mem_cons_of_mem _ (List.mem_append_right _ (List.mem_singleton_self _))

/-- C6: every standard thumbnail written by a successful image run is
saved as JPEG at quality 95 under its entry's filename, and its
dimensions fit within that entry's bounding box, never exceed the
decoded raster's own dimensions, and preserve the raster's aspect ratio
within rounding. -/
theorem standard_thumbnails_spec (fs : List Path) (f : MediaFile) (env : Env) (img : Img)
    (hd : env.decoded = .ok img) (hw : 1 ≤ img.width) (hh : 1 ≤ img.height) :
    ∀ n bw bh, (n, bw, bh) ∈ THUMBNAIL_CONFIG →
      ((processImage fs f env).1 = .processedImage →
        Effect.writeImage (sidecarDir f ++ [n]) (thumbAt img bw bh) 95 ∈
          (processImage fs f env).2) ∧
      (thumbAt img bw bh).width ≤ bw ∧ (thumbAt img bw bh).height ≤ bh ∧
      (thumbAt img bw bh).width ≤ img.width ∧ (thumbAt img bw bh).height ≤ img.height ∧
      aspectClose img.width img.height (thumbAt img bw bh).width (thumbAt img bw bh).height := by
  intro n bw bh hmem
  have hbounds : 1 ≤ bw ∧ 1 ≤ bh := by
    simp only [THUMBNAIL_CONFIG, List.mem_cons, List.not_mem_nil, or_false,
      Prod.mk.injEq] at hmem
    rcases hmem with ⟨_, h1, h2⟩ | ⟨_, h1, h2⟩ | ⟨_, h1, h2⟩ | ⟨_, h1, h2⟩ | ⟨_, h1, h2⟩ <;>
      omega
  obtain ⟨s1, s2, s3, s4, s5⟩ := thumbDims_spec hw hh hbounds.1 hbounds.2
  exact ⟨fun hproc => (processImage_success_writes hd hproc).1 n bw bh hmem,
    s1, s2, s3, s4, s5⟩

theorem standard_thumbnails_spec_witness :
    envOk.decoded = .ok imgA ∧ 1 ≤ imgA.width ∧ 1 ≤ imgA.height ∧
    ("SYNOPHOTO_THUMB_XL.jpg", 1280, 1280) ∈ THUMBNAIL_CONFIG ∧
    (processImage [] fileA envOk).1 = .processedImage ∧
    Effect.writeImage (sidecarDir fileA ++ ["SYNOPHOTO_THUMB_XL.jpg"])
      (thumbAt imgA 1280 1280) 95 ∈ (processImage [] fileA envOk).2 ∧
    (thumbAt imgA 1280 1280).width ≤ 1280 ∧
    (thumbAt imgA 1280 1280).height ≤ 1280 ∧
    aspectClose imgA.width imgA.height
      (thumbAt imgA 1280 1280).width (thumbAt imgA 1280 1280).height ∧
    (thumbAt imgA 1280 1280).width = 8 ∧
    (thumbAt imgA 1280 1280).height = 4 := by
  have h := standard_thumbnails_spec [] fileA envOk imgA rfl (by decide) (by decide)
    "SYNOPHOTO_THUMB_XL.jpg" 1280 1280 (by decide)
  have hproc : (processImage [] fileA envOk).1 = .processedImage := by rfl
  exact ⟨rfl, by decide, by decide, by decide, hproc, h.1 hproc, h.2.1, h.2.2.1,
    h.2.2.2.2.2, by decide, by decide⟩

theorem paddedPreview_px_outside (c : Img) (x y : Nat)
    (h : x < (120 - c.width) / 2 ∨ (120 - c.width) / 2 + c.width ≤ x ∨
      y < (120 - c.height) / 2 ∨ (120 - c.height) / 2 + c.height ≤ y) :
    (paddedPreview c).px x y = (0, 0, 0) := by
  show (if (120 - c.width) / 2 ≤ x ∧ x < (120 - c.width) / 2 + c.width ∧
      (120 - c.height) / 2 ≤ y ∧ y < (120 - c.height) / 2 + c.height then
    c.px (x - (120 - c.width) / 2) (y - (120 - c.height) / 2) else (0, 0, 0)) = (0, 0, 0)
  split
  case isTrue hc => exact absurd hc (by omega)
  case isFalse => rfl

theorem paddedPreview_px_inside (c : Img) (x y : Nat)
    (h1 : (120 - c.width) / 2 ≤ x) (h2 : x < (120 - c.width) / 2 + c.width)
    (h3 : (120 - c.height) / 2 ≤ y) (h4 : y < (120 - c.height) / 2 + c.height) :
    (paddedPreview c).px x y = c.px (x - (120 - c.width) / 2) (y - (120 - c.height) / 2) := by
  show (if (120 - c.width) / 2 ≤ x ∧ x < (120 - c.width) / 2 + c.width ∧
      (120 - c.height) / 2 ≤ y ∧ y < (120 - c.height) / 2 + c.height then
    c.px (x - (120 - c.width) / 2) (y - (120 - c.height) / 2) else (0, 0, 0)) =
    c.px (x - (120 - c.width) / 2) (y - (120 - c.height) / 2)
  rw [if_pos ⟨h1, h2, h3, h4⟩]

/-- C7: the preview raster written by a successful image run is saved as
JPEG quality 90 under the preview filename and is exactly the 120-by-120
preview box: the base raster resized to fit the box preserving aspect
ratio, pasted centered (left/right and top/bottom padding differ by at
most one pixel), with every pixel outside the pasted content region
equal to the black fill colour. -/
theorem preview_exact_box_and_padding (fs : List Path) (f : MediaFile) (env : Env)
    (img : Img) (hd : env.decoded = .ok img) (hw : 1 ≤ img.width) (hh : 1 ≤ img.height) :
    ((processImage fs f env).1 = .processedImage →
      Effect.writeImage (previewPath f)
        (paddedPreview (thumbAt img PREVIEW_CONFIG.2.1 PREVIEW_CONFIG.2.2)) 90 ∈
        (processImage fs f env).2) ∧
    (paddedPreview (thumbAt img 120 120)).width = 120 ∧
    (paddedPreview (thumbAt img 120 120)).height = 120 ∧
    (thumbAt img 120 120).width ≤ 120 ∧
    (thumbAt img 120 120).height ≤ 120 ∧
    aspectClose img.width img.height
      (thumbAt img 120 120).width (thumbAt img 120 120).height ∧
    (∀ x y,
      x < (120 - (thumbAt img 120 120).width) / 2 ∨
      (120 - (thumbAt img 120 120).width) / 2 + (thumbAt img 120 120).width ≤ x ∨
      y < (120 - (thumbAt img 120 120).height) / 2 ∨
      (120 - (thumbAt img 120 120).height) / 2 + (thumbAt img 120 120).height ≤ y →
      (paddedPreview (thumbAt img 120 120)).px x y = (0, 0, 0)) ∧
    (∀ x y,
      (120 - (thumbAt img 120 120).width) / 2 ≤ x →
      x < (120 - (thumbAt img 120 120).width) / 2 + (thumbAt img 120 120).width →
      (120 - (thumbAt img 120 120).height) / 2 ≤ y →
      y < (120 - (thumbAt img 120 120).height) / 2 + (thumbAt img 120 120).height →
      (paddedPreview (thumbAt img 120 120)).px x y =
        (thumbAt img 120 120).px (x - (120 - (thumbAt img 120 120).width) / 2)
          (y - (120 - (thumbAt img 120 120).height) / 2)) ∧
    ((120 - (thumbAt img 120 120).width) / 2 ≤
        120 - (thumbAt img 120 120).width - (120 - (thumbAt img 120 120).width) / 2 ∧
      120 - (thumbAt img 120 120).width - (120 - (thumbAt img 120 120).width) / 2 ≤
        (120 - (thumbAt img 120 120).width) / 2 + 1) ∧
    ((120 - (thumbAt img 120 120).height) / 2 ≤
        120 - (thumbAt img 120 120).height - (120 - (thumbAt img 120 120).height) / 2 ∧
      120 - (thumbAt img 120 120).height - (120 - (thumbAt img 120 120).height) / 2 ≤
        (120 - (thumbAt img 120 120).height) / 2 + 1) := by
  obtain ⟨s1, s2, s3, s4, s5⟩ :=
    @thumbDims_spec img.width img.height 120 120 hw hh (by omega) (by omega)
  refine ⟨fun hproc => (processImage_success_writes hd hproc).2, rfl, rfl,
    s1, s2, s5, ?_, ?_, by omega, by omega⟩
  · intro x y hxy
    exact paddedPreview_px_outside _ x y hxy
  · intro x y h1 h2 h3 h4
    exact paddedPreview_px_inside _ x y h1 h2 h3 h4

theorem preview_exact_box_and_padding_witness :
    envOk.decoded = .ok imgA ∧ 1 ≤ imgA.width ∧ 1 ≤ imgA.height ∧
    (processImage [] fileA envOk).1 = .processedImage ∧
    Effect.writeImage (previewPath fileA)
      (paddedPreview (thumbAt imgA PREVIEW_CONFIG.2.1 PREVIEW_CONFIG.2.2)) 90 ∈
      (processImage [] fileA envOk).2 ∧
    (paddedPreview (thumbAt imgA 120 120)).width = 120 ∧
    (paddedPreview (thumbAt imgA 120 120)).height = 120 ∧
    (thumbAt imgA 120 120).width = 8 ∧
    (thumbAt imgA 120 120).height = 4 ∧
    (paddedPreview (thumbAt imgA 120 120)).px 0 0 = (0, 0, 0) := by
  have h := preview_exact_box_and_padding [] fileA envOk imgA rfl
    (by decide) (by decide)
  have hproc : (processImage [] fileA envOk).1 = .processedImage := by rfl
  refine ⟨rfl, by decide, by decide, hproc, h.1 hproc, h.2.1, h.2.2.1, by decide, by decide, ?_⟩
  have hpad := h.2.2.2.2.2.2.1 0 0 (by
    right; right; left
    show (0 : Nat) < (120 - (thumbAt imgA 120 120).height) / 2
    decide)
  exact hpad

/-! ### The marker doubles as the first write (C10) -/

theorem saveThumbnails_config_head (dir : Path) (img : Img) {env : Env}
    (hxl : env.saveErr "SYNOPHOTO_THUMB_XL.jpg" = none) :
    saveThumbnails dir img env THUMBNAIL_CONFIG =
      (Effect.writeImage (dir ++ ["SYNOPHOTO_THUMB_XL.jpg"]) (thumbAt img 1280 1280) 95 ::
        (saveThumbnails dir img env THUMBNAIL_CONFIG.tail).1,
       (saveThumbnails dir img env THUMBNAIL_CONFIG.tail).2) := by
  simp only [THUMBNAIL_CONFIG, List.tail_cons]
  simp only [saveThumbnails, hxl]

/-- C10: the existence marker checked by the skip test is also the first
standard thumbnail written: in any failing image run whose XL save
succeeded, the effect list starts with the sidecar directory creation
followed immediately by the XL write, the marker ends up present in the
resulting filesystem, and every later run over that filesystem reports
Skipped with no effects — so the renditions the failed run never wrote
are never generated. -/
theorem marker_first_written_shadows_failures (fs : List Path) (f : MediaFile)
    (env env2 : Env) (img : Img) (e : String)
    (hm : markerPath f ∉ fs) (hd : env.decoded = .ok img)
    (hxl : env.saveErr markerName = none)
    (hfail : (processImage fs f env).1 = .failed e) :
    markerName = "SYNOPHOTO_THUMB_XL.jpg" ∧
    (processImage fs f env).2.take 2 =
      [.mkdir (sidecarDir f), .writeImage (markerPath f) (thumbAt img 1280 1280) 95] ∧
    markerPath f ∈ applyEffects fs (processImage fs f env).2 ∧
    processImage (applyEffects fs (processImage fs f env).2) f env2 = (.skipped, []) ∧
    (∀ p, p ∉ applyEffects fs (processImage fs f env).2 →
      p ∉ applyEffects (applyEffects fs (processImage fs f env).2)
        (processImage (applyEffects fs (processImage fs f env).2) f env2).2) := by
  have hxl' : env.saveErr "SYNOPHOTO_THUMB_XL.jpg" = none := hxl
  have hhead := saveThumbnails_config_head (sidecarDir f) img hxl'
  cases hst : saveThumbnails (sidecarDir f) img env THUMBNAIL_CONFIG with
  | mk effs r =>
    rw [hst] at hhead
    have heffs : effs =
        Effect.writeImage (sidecarDir f ++ ["SYNOPHOTO_THUMB_XL.jpg"])
            (thumbAt img 1280 1280) 95 ::
          (saveThumbnails (sidecarDir f) img env THUMBNAIL_CONFIG.tail).1 :=
      congrArg Prod.fst hhead
    have hEq : ∃ er, processImage fs f env = (.failed er, .mkdir (sidecarDir f) :: effs) := by
      cases r with
      | some e1 => exact ⟨e1, by simp [processImage, hm, hd, hst]⟩
      | none =>
        cases hpe : env.saveErr PREVIEW_CONFIG.1 with
        | some e2 => exact ⟨e2, by simp [processImage, hm, hd, hst, hpe]⟩
        | none =>
          rw [processImage_success_eq ((contains_false_iff fs _).mpr hm) hd hst hpe]
            at hfail
          simp at hfail
    obtain ⟨er, hPE⟩ := hEq
    rw [hPE]
    have hW : Effect.writeImage (markerPath f) (thumbAt img 1280 1280) 95 ∈
        Effect.mkdir (sidecarDir f) :: effs := by
      rw [heffs]
      exact List.mem_cons_of_mem _ (List.mem_cons_self _ _)
    have hnodel : ∀ q, Effect.deleteFile q ∈ Effect.mkdir (sidecarDir f) :: effs →
        q ≠ markerPath f := by
      intro q hq
      exfalso
      rcases List.mem_cons.mp hq with h1 | h1
      · exact absurd h1 (by simp)
      · rw [heffs] at h1
        rcases List.mem_cons.mp h1 with h2 | h2
        · exact absurd h2 (by simp)
        · obtain ⟨n, bw, bh, _, heq2⟩ := saveThumbnails_mem_shape h2
          exact absurd heq2 (by simp)
    have hmem : markerPath f ∈ applyEffects fs (Effect.mkdir (sidecarDir f) :: effs) :=
      mem_applyEffects_of_write hW hnodel
    have hskip := processImage_skip_eq env2
      ((contains_true_iff (applyEffects fs (Effect.mkdir (sidecarDir f) :: effs))
        (markerPath f)).mpr hmem)
    refine ⟨rfl, ?_, hmem, hskip, ?_⟩
    · rw [heffs]
      rfl
    · intro p hp
      rw [hskip]
      simpa [applyEffects] using hp

theorem marker_first_written_shadows_failures_witness :
    markerPath fileA ∉ ([] : List Path) ∧
    envSaveSFail.decoded = .ok imgA ∧
    envSaveSFail.saveErr markerName = none ∧
    (processImage [] fileA envSaveSFail).1 = .failed "disk full" ∧
    markerPath fileA ∈ applyEffects [] (processImage [] fileA envSaveSFail).2 ∧
    processImage (applyEffects [] (processImage [] fileA envSaveSFail).2) fileA envOk =
      (.skipped, []) := by
  have h1 : markerPath fileA ∉ ([] : List Path) := by simp
  have h4 : (processImage [] fileA envSaveSFail).1 = .failed "disk full" := by rfl
  have h := marker_first_written_shadows_failures [] fileA envSaveSFail envOk imgA
    "disk full" h1 rfl rfl h4
  exact ⟨h1, rfl, rfl, h4, h.2.2.1, h.2.2.2.1⟩

end Synothumb
